import Mathlib

namespace FictionAI

/-!
Verification of the fiction-ai repository's client core against its
specification.  The TypeScript client code is embedded shallowly: JS strings
are modelled as `String` or `List Char` (where character-level slicing
matters), JS objects as structures, fallible paths as `Option`/`Except`,
and the React state updates of a handler as explicit state-passing
functions.  Parts of the repository that are only described by the spec
(the Python backend is not in the source tree) are modelled from the spec
and marked as such in their doc comments.
-/

/-! ## apiFetch (src/fiction-ai-ui/src/api/client.ts)

`apiFetch` performs a fetch, parses the body with `parseJsonSafe`
(JSON on success, the raw text otherwise, `null` for an empty body)
and then branches on `res.ok` and on the shape of the parsed payload.
We model the parsed payload by the four shapes the branches
distinguish: a non-object (null or plain text), a success envelope
`{ok: true, data}`, a failure envelope `{ok: false, error}`, and an
object body that is not a well-formed envelope. -/

/-- The `error` object of a failure envelope: `{code, message, details?}`.
`details` is an arbitrary JSON object; we keep it opaque as an
`Option String`. -/
structure ErrInfo where
  code : String
  message : String
  details : Option String
deriving DecidableEq

/-- The parsed body of an HTTP response, as distinguished by `apiFetch`:
a non-object (`null` for an empty body, or the raw text of a non-JSON
body), a success envelope (an object with truthy `ok`), a failure
envelope (an object with falsy `ok` and a well-formed `error` object),
or an ill-formed envelope — an object with falsy `ok` and no `error`
key, such as a bare `{"ok": false}` or an unrelated JSON object. -/
inductive Payload (α : Type) where
  | nonObject
  | okTrue (data : α)
  | okFalse (e : ErrInfo)
  | badEnvelope
deriving DecidableEq

/-- The `ApiError` thrown by `apiFetch`: message, code and optional details. -/
structure ApiErrorM where
  message : String
  code : String
  details : Option String
deriving DecidableEq

/-- How a call of `apiFetch` ends: a returned value, a thrown
`ApiError`, or a raw `TypeError` escaping from the property access
`apiRes.error.message` — an exception that carries no code. -/
inductive ApiOutcome (α : Type) where
  | ok (data : α)
  | apiError (e : ApiErrorM)
  | typeError
deriving DecidableEq

/-- The result logic of `apiFetch` after the body has been parsed
(src/fiction-ai-ui/src/api/client.ts, lines 56-73): on a non-2xx
response it throws the failure envelope's error if the body carries an
`error` key and a synthesized `HTTP_ERROR` otherwise; on a 2xx response
it throws `INVALID_RESPONSE` for a non-object body, returns `data` for a
success envelope, throws the envelope's error for a failure envelope,
and crashes with a `TypeError` at `apiRes.error.message` for an object
body with falsy `ok` and no `error` object. -/
def apiFetchResult {α : Type} (resOk : Bool) (status : Nat)
    (payload : Payload α) : ApiOutcome α :=
  if resOk = false then
    match payload with
    | .okFalse e => .apiError ⟨e.message, e.code, e.details⟩
    | _ => .apiError ⟨"HTTP " ++ toString status, "HTTP_ERROR", none⟩
  else
    match payload with
    | .nonObject => .apiError ⟨"Invalid API response", "INVALID_RESPONSE", none⟩
    | .okTrue d => .ok d
    | .okFalse e => .apiError ⟨e.message, e.code, e.details⟩
    | .badEnvelope => .typeError

/-! ## The API error codes (src/unnamed/part_003, `ApiErrorCode`) -/

/-- The `book_id` member of the `searchSnippets` params object:
absent (`'book_id' in params` is false), present but `undefined`,
present and `null`, or present with a string value. -/
inductive BookIdArg where
  | absent
  | undef
  | nullArg
  | strArg (s : String)

/-- The optional second argument of `searchSnippets`. -/
structure SearchParamsM where
  bookId : BookIdArg
  limit : Option Nat

/-- The key/value pairs `searchSnippets` puts into its `URLSearchParams`:
always `q`; `book_id` only when the key is present with a
non-`undefined` value, mapping `null` to the empty string; `limit` only
when it is neither `null` nor `undefined`. -/
def searchSnippetsQuery (q : String) (params : Option SearchParamsM) :
    List (String × String) :=
  let withQ := [("q", q)]
  let withBook :=
    match params with
    | none => withQ
    | some p =>
      match p.bookId with
      | .absent => withQ
      | .undef => withQ
      | .nullArg => withQ ++ [("book_id", "")]
      | .strArg s => withQ ++ [("book_id", s)]
  match params with
  | none => withBook
  | some p =>
    match p.limit with
    | none => withBook
    | some n => withBook ++ [("limit", toString n)]

/-- Modelled from the spec: the backend snippet-search scope resolution,
which is not in the source tree.  An omitted `book_id` parameter means
"use the caller's current active book if any, else search globally";
an explicit empty string forces a global-only search.  `none` as the
result means global scope. -/
def resolveScope (explicitParam : Option String) (activeBook : Option String) :
    Option String :=
  match explicitParam with
  | none => activeBook
  | some "" => none
  | some b => some b

/-! ## Form guards (SnippetManager.tsx lines 21-25, CreateBookForm lines 19-23)

Each handler returns the arguments of the callback it would invoke, or
`none` when the guard makes it return early. -/

/-- JS `String.prototype.trim`: strip leading and trailing whitespace. -/
def trimChars (l : List Char) : List Char :=
  ((l.dropWhile Char.isWhitespace).reverse.dropWhile Char.isWhitespace).reverse

/-- `handleSave` of `SnippetManager`: returns early when the text trims
to empty (`!text.trim()`), otherwise invokes `onSave` with the untrimmed
text. -/
def snippetHandleSave (text : List Char) : Option (List Char) :=
  if trimChars text = [] then none else some text

/-- `handleSubmit` of `CreateBookForm`: returns early when the premise
trims to empty (`!premise.trim()`), otherwise invokes `onSubmit` with
the raw field values. -/
def createBookHandleSubmit (premise genre targetWords : List Char) :
    Option (List Char × List Char × List Char) :=
  if trimChars premise = [] then none else some (premise, genre, targetWords)

/-! ## The SSE stream readers (src/fiction-ai-ui/src/App.tsx)

`createBook` (lines 502-572) and `generateOutline` (lines 586-644) read
the response body chunk by chunk, append each decoded chunk to a string
buffer, split the buffer on "\n\n", keep the last piece as the new
buffer, and dispatch every complete segment that starts with "event: "
and contains "\ndata: ".  Decoded text is modelled at character
granularity as `List Char`. -/

/-- JS `buffer.split("\n\n")` on a char list. -/
def splitSep : List Char → List (List Char)
  | [] => [[]]
  | [c] => [[c]]
  | c1 :: c2 :: rest =>
    if c1 = '\n' ∧ c2 = '\n' then
      [] :: splitSep rest
    else
      match splitSep (c2 :: rest) with
      | [] => [[c1]]
      | h :: t => (c1 :: h) :: t

/-- Whether a char list contains the frame separator "\n\n". -/
def hasSep : List Char → Bool
  | [] => false
  | [_] => false
  | c1 :: c2 :: rest => (c1 == '\n' && c2 == '\n') || hasSep (c2 :: rest)

/-- No "\n\n" inside, and the list does not end with '\n' (so a following
separator cannot be mis-detected one character early). -/
def sepFreeEnd : List Char → Bool
  | [] => true
  | [c] => !(c == '\n')
  | c1 :: c2 :: rest => !(c1 == '\n' && c2 == '\n') && sepFreeEnd (c2 :: rest)

/-- JS `line.indexOf(pat)`: the first index at which `pat` occurs, if any. -/
def findSub (pat : List Char) : List Char → Option Nat
  | [] => if pat.isPrefixOf ([] : List Char) then some 0 else none
  | c :: rest =>
    if pat.isPrefixOf (c :: rest) then some 0
    else (findSub pat rest).map (· + 1)

/-- One SSE frame as the client reassembles it: header, event name,
"\ndata: ", payload. -/
def mkFrame (f : List Char × List Char) : List Char :=
  "event: ".toList ++ f.1 ++ "\ndata: ".toList ++ f.2

/-- A well-formed frame: the event name and the JSON payload contain no
newline (JSON.stringify output never contains a raw newline). -/
def wfFrame (f : List Char × List Char) : Prop :=
  '\n' ∉ f.1 ∧ '\n' ∉ f.2

instance (f : List Char × List Char) : Decidable (wfFrame f) :=
  decidable_of_iff ('\n' ∉ f.1 ∧ '\n' ∉ f.2) Iff.rfl

/-- The per-segment dispatch of the client's stream readers: a segment
starting with "event: " whose first "\ndata: " occurrence is at index i
dispatches the event name sliced from 7 to i and the payload sliced
from i + 7. -/
def parseFrame (seg : List Char) : Option (List Char × List Char) :=
  if "event: ".toList.isPrefixOf seg then
    match findSub "\ndata: ".toList seg with
    | none => none
    | some i => some ((seg.take i).drop 7, seg.drop (i + 7))
  else none

/-- The buffer kept by the client after consuming text `s`: the last
(incomplete) segment of the split. -/
def bufOf (s : List Char) : List Char := (splitSep s).getLastD []

/-- The frames dispatched by the client after consuming text `s`: every
complete segment that parses as an `event: `/`data: ` frame, in order. -/
def dispatchOf (s : List Char) : List (List Char × List Char) :=
  (splitSep s).dropLast.filterMap parseFrame

/-- One iteration of the client read loop: append the chunk to the
buffer, split on "\n\n", keep the last piece as the new buffer and
dispatch the complete segments. -/
def clientStep (st : List Char × List (List Char × List Char))
    (chunk : List Char) : List Char × List (List Char × List Char) :=
  let segs := splitSep (st.1 ++ chunk)
  (segs.getLastD [], st.2 ++ segs.dropLast.filterMap parseFrame)

/-- The whole client read loop over a list of received chunks, starting
from an empty buffer. -/
def runClient (chunks : List (List Char)) :
    List Char × List (List Char × List Char) :=
  chunks.foldl clientStep ([], [])

/-- The server byte stream for a list of frames: each frame followed by
the blank-line terminator. -/
def encodeStream (frames : List (List Char × List Char)) : List Char :=
  (frames.map (fun f => mkFrame f ++ '\n' :: '\n' :: ([] : List Char))).flatten

/-! ## Delta accumulation (src/fiction-ai-ui/src/App.tsx)

The `generateOutline` handler (lines 616-638) accumulates
`outline_chunk` deltas into the `outlineMarkdown` state; the
`generateAllChaptersStream` handlers (lines 695-737) buffer
`chapter_token` deltas in `pendingTextRef` and a typing timer moves one
character per tick from the buffer into the `chapterMarkdown` state. -/

/-- An event seen by the outline stream dispatcher: an `outline_chunk`
with its delta, the terminal `done`, or the terminal `error`. -/
inductive OEvent where
  | chunk (delta : List Char)
  | doneEv
  | errorEv

/-- The `outlineMarkdown` state update of `generateOutline` for one
event: `outline_chunk` appends the delta (`(prev || "") + payload.delta`,
where the state is `string | null`), the terminal events leave the text
unchanged. -/
def outlineStep (acc : Option (List Char)) (e : OEvent) : Option (List Char) :=
  match e with
  | .chunk d => some (acc.getD [] ++ d)
  | .doneEv => acc
  | .errorEv => acc

/-- The chapter-stream text state of `generateAllChaptersStream`:
`chapterMarkdown` plus the `pendingTextRef` buffer of not-yet-typed
characters. -/
structure ChapSt where
  markdown : List Char
  pending : List Char
deriving DecidableEq

/-- An action observed by the chapter stream client: the `chapter_start`,
`chapter_token`, `done` and `error` events, plus one firing of the
15 ms typing interval. -/
inductive ChapAct where
  | start (number : Nat) (title : List Char)
  | token (delta : List Char)
  | tick
  | doneEv
  | errorEv

/-- One step of the chapter stream client: `chapter_start` clears both
texts; `chapter_token` appends a truthy (non-empty) delta to the pending
buffer; a timer tick moves the first pending character into the
markdown; the terminal events close the stream and stop the timer
without touching either text. -/
def chapStep (s : ChapSt) (a : ChapAct) : ChapSt :=
  match a with
  | .start _ _ => ⟨[], []⟩
  | .token d => if d = [] then s else ⟨s.markdown, s.pending ++ d⟩
  | .tick =>
    match s.pending with
    | [] => s
    | c :: rest => ⟨s.markdown ++ [c], rest⟩
  | .doneEv => s
  | .errorEv => s

/-- The text a chapter-stream client has accumulated: what has been
typed out plus what is still buffered. -/
def accumulatedText (s : ChapSt) : List Char :=
  s.markdown ++ s.pending

/-- The `chapter_token` deltas of an action sequence, in arrival order. -/
def deltasOf (acts : List ChapAct) : List (List Char) :=
  acts.filterMap fun a =>
    match a with
    | .token d => some d
    | _ => none

/-- Whether an action is not a `chapter_start` (tokens, ticks and
terminal events of a single chapter's run). -/
def noStart : ChapAct → Bool
  | .start _ _ => false
  | _ => true

/-- Modelled from the spec: the non-streaming caller of the generation
pipeline, which is not in the source tree — "a non-streaming caller
simply concatenates the whole sequence before returning". -/
def nonStreamedText (deltas : List (List Char)) : List Char :=
  deltas.flatten

/-! ## generateAllChaptersStream entry (src/fiction-ai-ui/src/App.tsx, 684-708)
and the per-book generation lock -/

/-- The load states of the UI (`type LoadState`). -/
inductive LoadState where
  | idle
  | loading
  | error
deriving DecidableEq

/-- The slice of `MainEditor` state read and written by the entry of
`generateAllChaptersStream`, plus a counter of EventSource objects the
component has opened. -/
structure GenAllUI where
  bookId : Option String
  streamingAll : Bool
  chaptersState : LoadState
  chapterMarkdown : List Char
  selectedChapter : Option (Nat × List Char)
  pending : List Char
  openedSources : Nat
deriving DecidableEq

/-- The synchronous entry of `generateAllChaptersStream`: with no book
or with a stream already in flight it returns immediately; otherwise it
sets the loading state, clears the chapter text and selection and the
pending buffer, opens an EventSource and marks `streamingAll`. -/
def generateAllChaptersEntry (s : GenAllUI) : GenAllUI :=
  if s.bookId.isNone || s.streamingAll then s
  else
    { s with
      chaptersState := .loading
      chapterMarkdown := []
      selectedChapter := none
      pending := []
      streamingAll := true
      openedSources := s.openedSources + 1 }

/-- Modelled from the spec: the backend per-book generation lock, which
is not in the source tree.  Acquisition is non-blocking: a request for a
book whose lock is held is rejected immediately (`none`), never queued. -/
def tryAcquireLock (locks : List String) (bookId : String) :
    Option (List String) :=
  if bookId ∈ locks then none else some (bookId :: locks)

/-! ## AuthProvider (src/unnamed/part_000, lines 22-48)

The provider state is the two localStorage keys plus the React `user`
state.  `JSON.parse` and `JSON.stringify` are external; they are passed
in as functions (`parse` returning `none` models a parse exception,
which the code catches). -/

/-- A stored user record (`user_id`, `email`, `full_name`). -/
structure UserM where
  userId : String
  email : String
  fullName : String
deriving DecidableEq

/-- The provider-visible state: the `fiction_ai_token` and
`fiction_ai_user` localStorage keys and the `user` React state. -/
structure AuthSt where
  tokenKey : Option String
  userKey : Option String
  user : Option UserM
deriving DecidableEq

/-- The initial-restore effect.  The guard `if (token && storedUser)` is
a JS truthiness check: it passes only when both values are non-null and
non-empty (the empty string is falsy).  When it passes, parse the stored
user; on success set the user state, on a parse failure remove both keys
(the exception is caught, the user state is not touched).  When the
guard fails — a key missing or holding the empty string — nothing
changes. -/
def restoreOp (parse : String → Option UserM) (s : AuthSt) : AuthSt :=
  match s.tokenKey, s.userKey with
  | some t, some stored =>
    if t = "" ∨ stored = "" then s
    else
      match parse stored with
      | some u => { s with user := some u }
      | none => { s with tokenKey := none, userKey := none }
  | _, _ => s

/-- `login`: store the token and the stringified user, set the user state. -/
def loginOp (stringify : UserM → String) (tok : String) (u : UserM)
    (_s : AuthSt) : AuthSt :=
  { tokenKey := some tok, userKey := some (stringify u), user := some u }

/-- `logout`: remove both keys and clear the user state. -/
def logoutOp (_s : AuthSt) : AuthSt :=
  { tokenKey := none, userKey := none, user := none }

/-- The keys are both present or both absent, and the user state is
non-null only when both are present. -/
def authConsistent (s : AuthSt) : Prop :=
  (s.tokenKey.isSome ↔ s.userKey.isSome) ∧
    (s.user.isSome → s.tokenKey.isSome ∧ s.userKey.isSome)

instance (s : AuthSt) : Decidable (authConsistent s) :=
  decidable_of_iff ((s.tokenKey.isSome ↔ s.userKey.isSome) ∧
    (s.user.isSome → s.tokenKey.isSome ∧ s.userKey.isSome)) Iff.rfl

/-! ## Payload shapes (src/unnamed/part_003)

The claims about payload and record shapes are claims about the type
declarations of the shared types file; the declarations are transcribed
as first-order shape values so that shape equality and field presence
are decidable. -/

/-- A scalar field type of the types file. -/
inductive LeafTy where
  | str
  | num
  | boolean
  | strNull
  | numNull
deriving DecidableEq

/-- A field type: a scalar, a nested object of scalars, an array of
scalars, or an array of objects of scalars. -/
inductive FTy where
  | leaf (t : LeafTy)
  | objOf (fields : List (String × LeafTy))
  | arrOf (elem : LeafTy)
  | arrObjOf (fields : List (String × LeafTy))
deriving DecidableEq

/-- The shape of a payload or record: its ordered field list. -/
abbrev Shape : Type := List (String × FTy)

/-- `ChapterRef = {number, title, updated_at}`. -/
def chapterRefFields : List (String × LeafTy) :=
  [("number", .num), ("title", .str), ("updated_at", .str)]

/-- `ListChaptersData = {book_id, chapters: ChapterRef[]}`. -/
def listChaptersShape : Shape :=
  [("book_id", .leaf .str), ("chapters", .arrObjOf chapterRefFields)]

/-- `GetChapterData = {book_id, number, title, content_markdown}`:
the chapter fields sit at the top level. -/
def getChapterShape : Shape :=
  [("book_id", .leaf .str), ("number", .leaf .num),
   ("title", .leaf .str), ("content_markdown", .leaf .str)]

/-- `GenerateChapterData = {book_id, chapter: {number, title,
content_markdown}, retrieved_snippets: [{snippet_id}]}`. -/
def generateChapterShape : Shape :=
  [("book_id", .leaf .str),
   ("chapter", .objOf
     [("number", .num), ("title", .str), ("content_markdown", .str)]),
   ("retrieved_snippets", .arrObjOf [("snippet_id", .str)])]

/-- The chapter payload shape that follows the spec's words:
`{book_id, chapter: {number, title, content_markdown},
retrieved_snippets: [{snippet_id}]}`, claimed for the list, get and
generate chapter operations alike. -/
def claimedChapterPayloadShape : Shape :=
  [("book_id", .leaf .str),
   ("chapter", .objOf
     [("number", .num), ("title", .str), ("content_markdown", .str)]),
   ("retrieved_snippets", .arrObjOf [("snippet_id", .str)])]

/-- `Book` of the types file: `{book_id, title, slug, premise, genre,
target_words, style_guide, created_at, updated_at, outline_exists,
chapters_count}`. -/
def bookShape : Shape :=
  [("book_id", .leaf .str), ("title", .leaf .str), ("slug", .leaf .str),
   ("premise", .leaf .str), ("genre", .leaf .str),
   ("target_words", .leaf .numNull), ("style_guide", .leaf .str),
   ("created_at", .leaf .str), ("updated_at", .leaf .str),
   ("outline_exists", .leaf .boolean), ("chapters_count", .leaf .num)]

/-- `BookRef` of the types file: `{book_id, title, slug, status,
created_at, updated_at}`. -/
def bookRefShape : Shape :=
  [("book_id", .leaf .str), ("title", .leaf .str), ("slug", .leaf .str),
   ("status", .leaf .str), ("created_at", .leaf .str),
   ("updated_at", .leaf .str)]

/-- Field lookup in a shape. -/
def fieldOf (s : Shape) (name : String) : Option FTy :=
  List.lookup name s

/-! ## Helper lemmas for delta accumulation -/

/-! ## Claim theorems -/

/-! ## Theorems -/

theorem splitSep_nil : splitSep [] = [[]] := rfl

theorem splitSep_one (c : Char) : splitSep [c] = [[c]] := rfl

theorem splitSep_cons2 (c1 c2 : Char) (rest : List Char) :
    splitSep (c1 :: c2 :: rest) =
      if c1 = '\n' ∧ c2 = '\n' then [] :: splitSep rest
      else match splitSep (c2 :: rest) with
        | [] => [[c1]]
        | h :: t => (c1 :: h) :: t := by
  rw [splitSep]

theorem splitSep_ne_nil (s : List Char) : splitSep s ≠ [] := by
  induction s using splitSep.induct with
  | case1 => simp [splitSep_nil]
  | case2 c => simp [splitSep_one]
  | case3 c1 c2 rest hsep ih => simp [splitSep_cons2, hsep]
  | case4 c1 c2 rest hsep hnil ih => exact absurd hnil ih
  | case5 c1 c2 rest hsep h t heq ih => simp [splitSep_cons2, if_neg hsep, heq]

theorem splitSep_sep (r : List Char) :
    splitSep ('\n' :: '\n' :: r) = [] :: splitSep r := by
  simp [splitSep_cons2]

theorem splitSep_cons_not_sep (c : Char) (r : List Char)
    (h : ¬(c = '\n' ∧ r.head? = some '\n')) :
    splitSep (c :: r) = match splitSep r with
      | [] => [[c]]
      | h0 :: t0 => (c :: h0) :: t0 := by
  cases r with
  | nil => simp [splitSep_one, splitSep_nil]
  | cons r0 rs =>
    rw [splitSep_cons2, if_neg]
    intro ⟨h1, h2⟩
    exact h ⟨h1, by simp [h2]⟩

theorem splitSep_singleton_head (c : Char) (r : List Char) (h0 : List Char)
    (h : splitSep (c :: r) = [h0]) : ∃ u, h0 = c :: u := by
  cases r with
  | nil => rw [splitSep_one] at h; exact ⟨[], by simpa using h.symm⟩
  | cons r0 rs =>
    rw [splitSep_cons2] at h
    by_cases hsep : c = '\n' ∧ r0 = '\n'
    · rw [if_pos hsep] at h
      have := splitSep_ne_nil rs
      simp at h
      exact absurd h.2 this
    · rw [if_neg hsep] at h
      cases heq : splitSep (r0 :: rs) with
      | nil => exact absurd heq (splitSep_ne_nil _)
      | cons a l =>
        rw [heq] at h
        simp at h
        exact ⟨a, h.1.symm⟩

theorem getLastD_cons_of_ne_nil (a : List Char) (l : List (List Char)) (h : l ≠ []) :
    (a :: l).getLastD [] = l.getLastD [] := by
  cases l with
  | nil => exact absurd rfl h
  | cons b bs => simp [List.getLastD_cons]

/-- Splitting a concatenation: the finished segments of `s` are unchanged,
and the last (open) segment of `s` is re-split together with `t`. -/
theorem splitSep_append (s t : List Char) :
    splitSep (s ++ t) =
      (splitSep s).dropLast ++ splitSep ((splitSep s).getLastD [] ++ t) := by
  induction s using splitSep.induct with
  | case1 => simp [splitSep_nil]
  | case2 c => simp [splitSep_one]
  | case3 c1 c2 rest hsep ih =>
    obtain ⟨h1, h2⟩ := hsep
    subst h1; subst h2
    have hne := splitSep_ne_nil rest
    rw [show ('\n' :: '\n' :: rest) ++ t = '\n' :: '\n' :: (rest ++ t) by simp,
        splitSep_sep, splitSep_sep, ih,
        List.dropLast_cons_of_ne_nil hne, getLastD_cons_of_ne_nil _ _ hne]
    simp
  | case4 c1 c2 rest hsep hnil ih => exact absurd hnil (splitSep_ne_nil _)
  | case5 c1 c2 rest hsep h0 t0 heq ih =>
    rw [heq] at ih
    have hL : splitSep (c1 :: c2 :: rest) = (c1 :: h0) :: t0 := by
      rw [splitSep_cons2, if_neg hsep, heq]
    have hstep : (c1 :: c2 :: rest) ++ t = c1 :: ((c2 :: rest) ++ t) := by simp
    have hcond1 : ¬(c1 = '\n' ∧ ((c2 :: rest) ++ t).head? = some '\n') := by
      simp only [List.cons_append, List.head?_cons]
      intro hc
      exact hsep ⟨hc.1, by injection hc.2⟩
    cases t0 with
    | nil =>
      -- single segment: h0 starts with c2
      obtain ⟨u, hu⟩ := splitSep_singleton_head c2 rest h0 heq
      have hcond2 : ¬(c1 = '\n' ∧ (h0 ++ t).head? = some '\n') := by
        subst hu
        simp only [List.cons_append, List.head?_cons]
        intro hc
        exact hsep ⟨hc.1, by injection hc.2⟩
      have ih' : splitSep ((c2 :: rest) ++ t) = splitSep (h0 ++ t) := by
        simpa using ih
      rw [hstep, splitSep_cons_not_sep c1 _ hcond1, ih', hL]
      have hR : ((c1 :: h0) :: ([] : List (List Char))).dropLast ++
          splitSep ((((c1 :: h0)) :: ([] : List (List Char))).getLastD [] ++ t) =
          splitSep (c1 :: (h0 ++ t)) := by simp
      rw [hR, splitSep_cons_not_sep c1 _ hcond2]
    | cons t1 ts =>
      rw [hstep, splitSep_cons_not_sep c1 _ hcond1, ih, hL]
      simp only [List.dropLast_cons_of_ne_nil, getLastD_cons_of_ne_nil,
        List.cons_ne_nil, ne_eq, not_false_iff, List.cons_append]

theorem sepFreeEnd_of_no_newline (l : List Char) (h : '\n' ∉ l) :
    sepFreeEnd l = true := by
  induction l using sepFreeEnd.induct with
  | case1 => rfl
  | case2 c =>
    simp [sepFreeEnd] at h ⊢
    exact fun hc => h hc.symm
  | case3 c1 c2 rest ih =>
    simp only [sepFreeEnd, Bool.and_eq_true, Bool.not_eq_true']
    simp only [List.mem_cons, not_or] at h
    refine ⟨?_, ih (by simp [List.mem_cons]; tauto)⟩
    simp only [Bool.and_eq_false_iff, beq_eq_false_iff_ne, ne_eq]
    exact Or.inl (fun hc => h.1 hc.symm)

theorem sepFreeEnd_mid (A B : List Char) (hA : '\n' ∉ A) (hB : '\n' ∉ B)
    (hBne : B ≠ []) : sepFreeEnd (A ++ '\n' :: B) = true := by
  induction A with
  | nil =>
    cases B with
    | nil => exact absurd rfl hBne
    | cons b bs =>
      simp only [List.nil_append, sepFreeEnd, Bool.and_eq_true]
      constructor
      · simp only [List.mem_cons, not_or] at hB
        simp [Bool.and_eq_false_iff, beq_eq_false_iff_ne]
        exact fun hb => (hB.1 hb.symm).elim
      · exact sepFreeEnd_of_no_newline _ hB
  | cons a A' ih =>
    have haA : a ≠ '\n' ∧ '\n' ∉ A' := by
      simp only [List.mem_cons, not_or] at hA
      exact ⟨fun h => hA.1 h.symm, hA.2⟩
    cases A' with
    | nil =>
      simp only [List.nil_append] at ih
      simp only [List.cons_append, List.nil_append, sepFreeEnd, Bool.and_eq_true]
      exact ⟨by simp [haA.1], ih (by simp) ⟩
    | cons a' A'' =>
      simp only [List.cons_append, sepFreeEnd, Bool.and_eq_true] at ih ⊢
      refine ⟨by simp [haA.1], ?_⟩
      exact ih haA.2

/-- A separator-free chunk that does not end in '\n' splits off as one
whole segment before a following separator. -/
theorem splitSep_frame_sep (f r : List Char) (hf : sepFreeEnd f = true) :
    splitSep (f ++ '\n' :: '\n' :: r) = f :: splitSep r := by
  induction f with
  | nil => simpa using splitSep_sep r
  | cons c f' ih =>
    cases f' with
    | nil =>
      simp only [sepFreeEnd, Bool.not_eq_true', beq_eq_false_iff_ne, ne_eq] at hf
      simp only [List.cons_append, List.nil_append]
      rw [splitSep_cons_not_sep c ('\n' :: '\n' :: r) (by simp [hf]), splitSep_sep]
    | cons d f'' =>
      simp only [sepFreeEnd, Bool.and_eq_true, Bool.not_eq_true',
        Bool.and_eq_false_iff, beq_eq_false_iff_ne, ne_eq] at hf
      have ih' := ih hf.2
      simp only [List.cons_append] at ih' ⊢
      rw [splitSep_cons_not_sep c (d :: (f'' ++ '\n' :: '\n' :: r))
        (by
          simp only [List.head?_cons, Option.some.injEq]
          exact fun hc => hf.1.elim (fun h => h hc.1) (fun h => h hc.2)), ih']

/-- A separator-free char list is split into exactly one segment: itself. -/
theorem splitSep_no_sep (l : List Char) (h : hasSep l = false) :
    splitSep l = [l] := by
  induction l using hasSep.induct with
  | case1 => rfl
  | case2 c => rfl
  | case3 c1 c2 rest ih =>
    simp only [hasSep, Bool.or_eq_false_iff, Bool.and_eq_false_iff,
      beq_eq_false_iff_ne, ne_eq] at h
    rw [splitSep_cons2, if_neg (by tauto), ih h.2]

theorem findSub_boundary (p pre post : List Char) (hpre : '\n' ∉ pre) :
    findSub ('\n' :: p) (pre ++ '\n' :: (p ++ post)) = some pre.length := by
  induction pre with
  | nil =>
    have hp : ('\n' :: p).isPrefixOf ('\n' :: (p ++ post)) = true := by
      rw [List.isPrefixOf_iff_prefix]
      exact List.cons_prefix_cons.mpr ⟨rfl, List.prefix_append _ _⟩
    simp [findSub, hp]
  | cons c pre' ih =>
    simp only [List.mem_cons, not_or] at hpre
    have hc : c ≠ '\n' := fun h => hpre.1 h.symm
    have hnp : ('\n' :: p).isPrefixOf (c :: (pre' ++ '\n' :: (p ++ post))) = false := by
      simp [List.isPrefixOf]
      intro h
      exact absurd h.symm hc
    have hcond : ¬(('\n' :: p).isPrefixOf (c :: (pre' ++ '\n' :: (p ++ post))) = true) := by
      simp [hnp]
    simp only [List.cons_append, findSub, List.append_eq]
    rw [if_neg hcond, ih hpre.2]
    rfl

theorem parseFrame_mkFrame (f : List Char × List Char) (hwf : wfFrame f) :
    parseFrame (mkFrame f) = some f := by
  obtain ⟨h1, h2⟩ := hwf
  have hpre : "event: ".toList.isPrefixOf (mkFrame f) = true := by
    rw [List.isPrefixOf_iff_prefix]
    exact List.prefix_append _ _
  have hnopre : '\n' ∉ "event: ".toList ++ f.1 := by
    intro h
    rcases List.mem_append.mp h with h | h
    · revert h; decide
    · exact h1 h
  have hsplit1 : mkFrame f =
      ("event: ".toList ++ f.1) ++ '\n' :: ("data: ".toList ++ f.2) := by
    simp [mkFrame]
  have hlenpre : ("event: ".toList ++ f.1).length = 7 + f.1.length := by
    simp
    omega
  have hfind : findSub "\ndata: ".toList (mkFrame f) = some (7 + f.1.length) := by
    have hb := findSub_boundary "data: ".toList ("event: ".toList ++ f.1) f.2 hnopre
    rw [hlenpre] at hb
    rw [show ("\ndata: ".toList) = '\n' :: "data: ".toList from rfl, hsplit1]
    exact hb
  have htake : ((mkFrame f).take (7 + f.1.length)).drop 7 = f.1 := by
    have hm : mkFrame f = ("event: ".toList ++ f.1) ++ ("\ndata: ".toList ++ f.2) := by
      simp [mkFrame]
    rw [hm, ← hlenpre, List.take_left,
      show (7 : Nat) = "event: ".toList.length from rfl, List.drop_left]
  have hdrop : (mkFrame f).drop (7 + f.1.length + 7) = f.2 := by
    have hm : mkFrame f = (("event: ".toList ++ f.1) ++ "\ndata: ".toList) ++ f.2 := by
      simp [mkFrame]
    have hlen2 : (("event: ".toList ++ f.1) ++ "\ndata: ".toList).length =
        7 + f.1.length + 7 := by
      simp
      omega
    rw [hm, ← hlen2, List.drop_left]
  rw [parseFrame, if_pos hpre, hfind]
  simp [htake, hdrop]

theorem getLastD_append (l1 l2 : List (List Char)) (h : l2 ≠ []) :
    (l1 ++ l2).getLastD [] = l2.getLastD [] := by
  simp [List.getLastD_eq_getLast?, List.getLast?_append_of_ne_nil _ h]

theorem bufOf_append (s t : List Char) : bufOf (s ++ t) = bufOf (bufOf s ++ t) := by
  unfold bufOf
  rw [splitSep_append s t, getLastD_append _ _ (splitSep_ne_nil _)]

theorem dispatchOf_append (s t : List Char) :
    dispatchOf (s ++ t) = dispatchOf s ++ dispatchOf (bufOf s ++ t) := by
  unfold dispatchOf bufOf
  rw [splitSep_append s t, List.dropLast_append_of_ne_nil _ (splitSep_ne_nil _),
    List.filterMap_append]

theorem runClient_foldl (chunks : List (List Char)) (S : List Char) :
    chunks.foldl clientStep (bufOf S, dispatchOf S) =
      (bufOf (S ++ chunks.flatten), dispatchOf (S ++ chunks.flatten)) := by
  induction chunks generalizing S with
  | nil => simp
  | cons c cs ih =>
    rw [List.foldl_cons]
    have hstep : clientStep (bufOf S, dispatchOf S) c =
        (bufOf (S ++ c), dispatchOf (S ++ c)) := by
      simp only [clientStep]
      rw [bufOf_append, dispatchOf_append]
      rfl
    rw [hstep, ih (S ++ c)]
    simp [List.append_assoc]

theorem runClient_eq (chunks : List (List Char)) :
    runClient chunks = (bufOf chunks.flatten, dispatchOf chunks.flatten) := by
  have h : (([] : List Char), ([] : List (List Char × List Char))) =
      (bufOf [], dispatchOf []) := rfl
  rw [runClient, h, runClient_foldl chunks []]
  simp

theorem sepFreeEnd_mkFrame (f : List Char × List Char) (hwf : wfFrame f) :
    sepFreeEnd (mkFrame f) = true := by
  obtain ⟨h1, h2⟩ := hwf
  have hm : mkFrame f = ("event: ".toList ++ f.1) ++ '\n' :: ("data: ".toList ++ f.2) := by
    simp [mkFrame]
  rw [hm]
  apply sepFreeEnd_mid
  · intro h
    rcases List.mem_append.mp h with h | h
    · revert h; decide
    · exact h1 h
  · intro h
    rcases List.mem_append.mp h with h | h
    · revert h; decide
    · exact h2 h
  · simp

theorem splitSep_encodeStream (frames : List (List Char × List Char))
    (frag : List Char) (hwf : ∀ f ∈ frames, wfFrame f)
    (hfrag : hasSep frag = false) :
    splitSep (encodeStream frames ++ frag) = frames.map mkFrame ++ [frag] := by
  induction frames with
  | nil =>
    simp only [encodeStream, List.map_nil, List.flatten_nil, List.nil_append]
    exact splitSep_no_sep frag hfrag
  | cons f fs ih =>
    have hse := sepFreeEnd_mkFrame f (hwf f (by simp))
    have hassoc : encodeStream (f :: fs) ++ frag =
        mkFrame f ++ '\n' :: '\n' :: (encodeStream fs ++ frag) := by
      simp [encodeStream, List.append_assoc]
    rw [hassoc, splitSep_frame_sep _ _ hse,
       ih (fun g hg => hwf g (by simp [hg]))]
    simp

theorem filterMap_parse_mkFrame (frames : List (List Char × List Char))
    (hwf : ∀ f ∈ frames, wfFrame f) :
    (frames.map mkFrame).filterMap parseFrame = frames := by
  induction frames with
  | nil => rfl
  | cons f fs ih =>
    simp only [List.map_cons, List.filterMap_cons,
      parseFrame_mkFrame f (hwf f (by simp))]
    rw [ih (fun g hg => hwf g (by simp [hg]))]

theorem runClient_stream (frames : List (List Char × List Char))
    (chunks : List (List Char)) (frag : List Char)
    (hwf : ∀ f ∈ frames, wfFrame f) (hfrag : hasSep frag = false)
    (hjoin : chunks.flatten = encodeStream frames ++ frag) :
    runClient chunks = (frag, frames) := by
  rw [runClient_eq, hjoin]
  unfold bufOf dispatchOf
  rw [splitSep_encodeStream frames frag hwf hfrag,
    List.getLastD_concat, List.dropLast_concat,
    filterMap_parse_mkFrame frames hwf]

theorem outline_accum (deltas : List (List Char)) (acc : List Char) :
    List.foldl outlineStep (some acc) (deltas.map OEvent.chunk) =
      some (acc ++ deltas.flatten) := by
  induction deltas generalizing acc with
  | nil => simp
  | cons d ds ih =>
    simp only [List.map_cons, List.foldl_cons, outlineStep, Option.getD_some]
    rw [ih (acc ++ d)]
    simp [List.append_assoc]

theorem chap_accum (acts : List ChapAct) (s : ChapSt)
    (h : ∀ a ∈ acts, noStart a = true) :
    accumulatedText (List.foldl chapStep s acts) =
      accumulatedText s ++ (deltasOf acts).flatten := by
  induction acts generalizing s with
  | nil => simp [deltasOf]
  | cons a as ih =>
    have ha := h a (by simp)
    have hrest : ∀ x ∈ as, noStart x = true := fun x hx => h x (by simp [hx])
    rw [List.foldl_cons, ih _ hrest]
    cases a with
    | start n t => simp [noStart] at ha
    | token d =>
      by_cases hd : d = []
      · subst hd
        simp [chapStep, deltasOf, accumulatedText]
      · simp [chapStep, hd, deltasOf, accumulatedText, List.append_assoc]
    | tick =>
      cases hp : s.pending with
      | nil => simp [chapStep, hp, deltasOf, accumulatedText]
      | cons c rest =>
        simp [chapStep, hp, deltasOf, accumulatedText, List.append_assoc]
    | doneEv => simp [chapStep, deltasOf]
    | errorEv => simp [chapStep, deltasOf]

/-- C1: concatenating the streamed deltas equals the non-streamed text.
For the outline reader, folding the `outline_chunk` events followed by
the terminal event over the handler, from the cleared state, yields
exactly the concatenation of the deltas in arrival order — the
spec-modelled non-streamed result.  For the chapter stream, after a
`chapter_start` and any interleaving of `chapter_token` events, typing
ticks and terminal events, the text accumulated by the client equals
the concatenation of the token deltas in arrival order. -/
theorem stream_concat_eq_nonstreamed (odeltas : List (List Char))
    (acts : List ChapAct) (h : ∀ a ∈ acts, noStart a = true) :
    List.foldl outlineStep (some [])
        (odeltas.map OEvent.chunk ++ [OEvent.doneEv]) =
      some (nonStreamedText odeltas) ∧
    accumulatedText
        (List.foldl chapStep ⟨[], []⟩ (ChapAct.start 1 [] :: acts)) =
      nonStreamedText (deltasOf acts) := by
  constructor
  · rw [List.foldl_append, outline_accum odeltas []]
    simp [outlineStep, nonStreamedText]
  · rw [List.foldl_cons,
      show chapStep ⟨[], []⟩ (ChapAct.start 1 []) = ⟨[], []⟩ from rfl,
      chap_accum acts _ h]
    simp [accumulatedText, nonStreamedText]

/-- C1 witness: a two-delta outline stream and a one-token chapter run
with a typing tick, evaluated concretely. -/
theorem stream_concat_eq_nonstreamed_witness :
    List.foldl outlineStep (some [])
        (([['a'], ['b', 'c']].map OEvent.chunk) ++ [OEvent.doneEv]) =
      some ['a', 'b', 'c'] ∧
    accumulatedText (List.foldl chapStep ⟨[], []⟩
        (ChapAct.start 1 [] ::
          [ChapAct.token ['h', 'i'], ChapAct.tick, ChapAct.doneEv])) =
      ['h', 'i'] := by
  have h := stream_concat_eq_nonstreamed [['a'], ['b', 'c']]
    [ChapAct.token ['h', 'i'], ChapAct.tick, ChapAct.doneEv] (by decide)
  simpa [nonStreamedText, deltasOf] using h

/-- C2: for every well-formed frame list, every trailing incomplete
fragment without a separator, and every chunking of their
concatenation, the client read loop dispatches exactly the frames, each
once and in arrival order, pairing the text after "event: " with the
payload after "data: ", and keeps the incomplete fragment in the buffer
undispatched. -/
theorem sse_reader_dispatch (frames : List (List Char × List Char))
    (chunks : List (List Char)) (frag : List Char)
    (hwf : ∀ f ∈ frames, wfFrame f) (hfrag : hasSep frag = false)
    (hjoin : chunks.flatten = encodeStream frames ++ frag) :
    runClient chunks = (frag, frames) :=
  runClient_stream frames chunks frag hwf hfrag hjoin

/-- C2 witness: one frame split across three chunks, the third ending
with an incomplete next frame. -/
theorem sse_reader_dispatch_witness :
    runClient ["event: do".toList, "ne\ndata: 1\n".toList, "\nev".toList] =
      ("ev".toList, [("done".toList, "1".toList)]) :=
  sse_reader_dispatch [("done".toList, "1".toList)]
    ["event: do".toList, "ne\ndata: 1\n".toList, "\nev".toList] ("ev".toList)
    (by decide) (by decide) (by decide)

/-- C3: while a stream for the current book is in flight
(`streamingAll` true), invoking `generateAllChaptersStream` changes no
state and opens no EventSource; and the spec-modelled per-book lock
rejects a second acquisition for the same book immediately. -/
theorem generation_mutual_exclusion (s : GenAllUI) (locks : List String)
    (b : String) (hs : s.streamingAll = true) (hb : b ∈ locks) :
    generateAllChaptersEntry s = s ∧ tryAcquireLock locks b = none := by
  constructor
  · simp [generateAllChaptersEntry, hs]
  · simp [tryAcquireLock, hb]

/-- C3 witness: a state with a stream in flight and a lock already held. -/
theorem generation_mutual_exclusion_witness :
    generateAllChaptersEntry
        ⟨some "b1", true, LoadState.idle, [], none, [], 1⟩ =
      ⟨some "b1", true, LoadState.idle, [], none, [], 1⟩ ∧
    tryAcquireLock ["b1"] "b1" = none :=
  generation_mutual_exclusion
    ⟨some "b1", true, LoadState.idle, [], none, [], 1⟩ ["b1"] "b1"
    rfl (by decide)

/-- C4 counterexample: a non-2xx response whose body is a success
envelope.  `apiFetch` throws `HTTP_ERROR` instead of returning the
`data` payload, so "returns the data payload if and only if the parsed
body is an envelope with ok: true" fails in the right-to-left
direction. -/
theorem apiFetch_okTrue_non2xx_throws :
    apiFetchResult false 500 (Payload.okTrue (7 : Nat)) =
      ApiOutcome.apiError ⟨"HTTP 500", "HTTP_ERROR", none⟩ ∧
    apiFetchResult false 500 (Payload.okTrue (7 : Nat)) ≠ ApiOutcome.ok 7 := by
  constructor
  · rfl
  · simp [apiFetchResult]

/-- C4 amended: `apiFetch` returns the `data` payload iff the HTTP
status is 2xx and the parsed body is an envelope with ok: true; whenever
the body is an envelope with ok: false it throws an ApiError carrying
exactly the envelope's code, message and details, and never returns a
value. -/
theorem apiFetch_envelope_handling {α : Type} (resOk : Bool) (status : Nat)
    (p : Payload α) :
    (∀ d : α, apiFetchResult resOk status p = ApiOutcome.ok d ↔
      (resOk = true ∧ p = Payload.okTrue d)) ∧
    (∀ e : ErrInfo, p = Payload.okFalse e →
      apiFetchResult resOk status p =
        ApiOutcome.apiError ⟨e.message, e.code, e.details⟩) := by
  constructor
  · intro d
    cases resOk <;> cases p <;> simp [apiFetchResult]
  · intro e he
    subst he
    cases resOk <;> simp [apiFetchResult]

/-- C4 witness: a 2xx failure envelope throws exactly the envelope's
error. -/
theorem apiFetch_envelope_handling_witness :
    apiFetchResult true 200 (Payload.okFalse (α := Nat) ⟨"E_CODE", "boom", none⟩) =
      ApiOutcome.apiError ⟨"boom", "E_CODE", none⟩ :=
  (apiFetch_envelope_handling true 200
    (Payload.okFalse (α := Nat) ⟨"E_CODE", "boom", none⟩)).2
    ⟨"E_CODE", "boom", none⟩ rfl

/-- C5: `searchSnippets` with no `book_id` key sends no `book_id`
parameter, while `book_id: null` sends the parameter as the literal
empty string; under the spec-modelled backend resolution, an omitted
parameter resolves to the caller's active book (global when none) and
the explicit empty string forces global scope. -/
theorem searchSnippets_scope_distinction (q : String) (a : Option String)
    (lim : Option Nat) :
    (searchSnippetsQuery q none).lookup "book_id" = none ∧
    (searchSnippetsQuery q (some ⟨BookIdArg.nullArg, lim⟩)).lookup "book_id" =
      some "" ∧
    resolveScope none a = a ∧
    resolveScope (some "") a = none := by
  refine ⟨rfl, ?_, rfl, rfl⟩
  cases lim <;> rfl

/-- C6 counterexample: the list and get chapter payload types are not
the claimed wrapped shape — `GetChapterData` carries the chapter fields
at the top level and has neither a `chapter` nor a `retrieved_snippets`
field, and `ListChaptersData` carries a `chapters` array. -/
theorem chapter_payload_shape_counterexample :
    getChapterShape ≠ claimedChapterPayloadShape ∧
    listChaptersShape ≠ claimedChapterPayloadShape ∧
    fieldOf getChapterShape "chapter" = none ∧
    fieldOf getChapterShape "retrieved_snippets" = none ∧
    fieldOf listChaptersShape "chapter" = none ∧
    fieldOf listChaptersShape "retrieved_snippets" = none := by
  decide

/-- C6 amended: only the generate-chapter payload has the claimed shape
`{book_id, chapter: {number, title, content_markdown},
retrieved_snippets: [{snippet_id}]}`; the get payload is flat
`{book_id, number, title, content_markdown}` and the list payload is
`{book_id, chapters: ChapterRef[]}`. -/
theorem chapter_payload_shapes :
    generateChapterShape = claimedChapterPayloadShape ∧
    getChapterShape =
      [("book_id", .leaf .str), ("number", .leaf .num),
       ("title", .leaf .str), ("content_markdown", .leaf .str)] ∧
    listChaptersShape =
      [("book_id", .leaf .str), ("chapters", .arrObjOf chapterRefFields)] := by
  decide

/-- C8 counterexample: the `Book` record of the types file carries no
`status`, no visibility and no owner field. -/
theorem book_record_counterexample :
    fieldOf bookShape "status" = none ∧
    fieldOf bookShape "is_public" = none ∧
    fieldOf bookShape "owner_id" = none ∧
    fieldOf bookShape "user_id" = none := by
  decide

/-- C8 amended: the `Book` record exposed at the API boundary carries
id, title, slug, premise, genre, nullable target word count, style
guide, timestamps, an outline-existence flag and a chapters count — but
no status, visibility or owner field; a `status` field (as a free-form
string) appears only on the `BookRef` list summaries. -/
theorem book_record_fields :
    bookShape =
      [("book_id", .leaf .str), ("title", .leaf .str), ("slug", .leaf .str),
       ("premise", .leaf .str), ("genre", .leaf .str),
       ("target_words", .leaf .numNull), ("style_guide", .leaf .str),
       ("created_at", .leaf .str), ("updated_at", .leaf .str),
       ("outline_exists", .leaf .boolean), ("chapters_count", .leaf .num)] ∧
    fieldOf bookRefShape "status" = some (.leaf .str) ∧
    fieldOf bookShape "status" = none := by
  decide

/-- C9 counterexample: restoring from a storage state holding only the
token key leaves the keys mixed — one present, one absent — so the
both-present-or-both-absent property does not hold after every restore
from arbitrary storage.  And a stored empty-string user value, which
fails to parse as JSON, does not cause the keys to be removed either:
the empty string is falsy, so the restore block is skipped. -/
theorem auth_restore_mixed_storage :
    restoreOp (fun _ => none) ⟨some "t", none, none⟩ =
      ⟨some "t", none, none⟩ ∧
    ¬ authConsistent (restoreOp (fun _ => none) ⟨some "t", none, none⟩) ∧
    restoreOp (fun _ => none) ⟨some "t", some "", none⟩ =
      ⟨some "t", some "", none⟩ := by
  refine ⟨rfl, ?_, rfl⟩
  decide

/-- C9 amended: from any state whose two keys are consistent (both
present or both absent) and whose user state is still null — as on
mount — the restore effect preserves consistency; a stored non-empty
user value that fails to parse, alongside a non-empty token, removes
both keys and leaves the user null rather than the error propagating
(empty-string values are falsy, so the restore block is skipped and the
keys are left as they are); login and logout establish consistency from
any state. -/
theorem auth_provider_invariant (parse : String → Option UserM)
    (stringify : UserM → String) (tok : String) (u : UserM) (s : AuthSt)
    (hkeys : s.tokenKey.isSome ↔ s.userKey.isSome) (huser : s.user = none) :
    authConsistent (restoreOp parse s) ∧
    (∀ t stored, s.tokenKey = some t → s.userKey = some stored →
      t ≠ "" → stored ≠ "" → parse stored = none →
      restoreOp parse s = ⟨none, none, none⟩) ∧
    authConsistent (loginOp stringify tok u s) ∧
    authConsistent (logoutOp s) := by
  refine ⟨?_, ?_, by simp [authConsistent, loginOp],
    by simp [authConsistent, logoutOp]⟩
  · obtain ⟨kt, ku, us⟩ := s
    have hus : us = none := huser
    subst hus
    cases kt with
    | none =>
      cases ku with
      | none => simp [restoreOp, authConsistent]
      | some v => simp_all
    | some t =>
      cases ku with
      | none => simp_all
      | some v =>
        simp only [restoreOp]
        by_cases hz : t = "" ∨ v = ""
        · rw [if_pos hz]
          simp [authConsistent]
        · rw [if_neg hz]
          cases hp : parse v with
          | some u2 => simp [authConsistent]
          | none => simp [authConsistent]
  · intro t stored h1 h2 hne1 hne2 hp
    obtain ⟨kt, ku, us⟩ := s
    have hus : us = none := huser
    subst hus
    have h1a : kt = some t := h1
    have h2a : ku = some stored := h2
    subst h1a
    subst h2a
    simp only [restoreOp]
    rw [if_neg (not_or.mpr ⟨hne1, hne2⟩)]
    simp [hp]

/-- C9 witness: a consistent pre-state with a non-empty token and a
non-empty unparsable stored user, evaluated concretely. -/
theorem auth_provider_invariant_witness :
    authConsistent (restoreOp (fun _ => none)
      ⟨some "t", some "bad", none⟩) ∧
    restoreOp (fun _ => none) ⟨some "t", some "bad", none⟩ =
      ⟨none, none, none⟩ :=
  ⟨(auth_provider_invariant (fun _ => none) (fun _ => "x") "t"
      ⟨"1", "e", "n"⟩ ⟨some "t", some "bad", none⟩ (by decide) rfl).1,
   (auth_provider_invariant (fun _ => none) (fun _ => "x") "t"
      ⟨"1", "e", "n"⟩ ⟨some "t", some "bad", none⟩ (by decide) rfl).2.1
      "t" "bad" rfl rfl (by decide) (by decide) rfl⟩

/-- C10: the snippet save handler invokes its callback only when the
snippet text has a non-empty trim, and the create-book submit handler
invokes its callback only when the premise has a non-empty trim. -/
theorem create_requests_nonempty_trim (text premise genre tw : List Char) :
    (snippetHandleSave text ≠ none → trimChars text ≠ []) ∧
    (createBookHandleSubmit premise genre tw ≠ none → trimChars premise ≠ []) := by
  refine ⟨fun h ht => h ?_, fun h ht => h ?_⟩
  · simp [snippetHandleSave, ht]
  · simp [createBookHandleSubmit, ht]

/-- C10 witness: concrete non-blank inputs pass the guards with
non-empty trims. -/
theorem create_requests_nonempty_trim_witness :
    snippetHandleSave ['a'] ≠ none ∧ trimChars ['a'] ≠ [] ∧
    createBookHandleSubmit ['p'] [] [] ≠ none ∧ trimChars ['p'] ≠ [] :=
  ⟨by decide,
   (create_requests_nonempty_trim ['a'] ['p'] [] []).1 (by decide),
   by decide,
   (create_requests_nonempty_trim ['a'] ['p'] [] []).2 (by decide)⟩

end FictionAI
